import Mathlib

/-!
Verification of the scoring and response-annotation logic of the
brainz education app (an Express + React critical-thinking trainer).

The development shallowly embeds, from `src/server/routes.ts`,
`src/client/src/components/ThoughtZombiesGame.tsx` and the client badge
utility module:

* `calculateAOTScore` and the `/api/complete-questionnaire` caller,
* the `/api/dialogue` annotation parsing (point and badge tokens,
  response cleaning, completion rule),
* the `/api/health-nut/dialogue` parsing (points regex, embedded table
  token, speaker segmentation, completion rule),
* the `/api/thought-zombies/dialogue` score extraction with its
  TOTAL / category / legacy fallback order,
* the `/api/award-badge` check-then-insert badge ledger,
* the `/api/update-score` clamped score update,
* the client-side session-completion check of the Thought Zombies game.

Regex matching in the source is embedded as deterministic character-list
scanners that mirror each concrete pattern (all the patterns used are
backtracking-free: greedy classes are always followed by a character
outside the class, and the lazy `.*?}` runs to the first closing brace).
-/

namespace Brainz

abbrev Chars := List Char

/-- Consume an exact literal (case-sensitive); return the rest on success. -/
def matchLit : Chars → Chars → Option Chars
  | [], s => some s
  | _ :: _, [] => none
  | p :: ps, c :: cs => if p == c then matchLit ps cs else none

/-- Consume an exact literal, comparing case-insensitively (the JS `i` flag). -/
def matchLitCI : Chars → Chars → Option Chars
  | [], s => some s
  | _ :: _, [] => none
  | p :: ps, c :: cs => if p.toLower == c.toLower then matchLitCI ps cs else none

/-- One-or-more characters satisfying `p` (a greedy `X+` class);
returns the consumed characters and the rest. -/
def matchPlus (p : Char → Bool) (s : Chars) : Option (Chars × Chars) :=
  let pre := s.takeWhile p
  if pre.isEmpty then none else some (pre, s.dropWhile p)

/-- Decimal digits to a natural number, as JS `parseInt` on a `\d+` capture. -/
def digitsToNat (ds : Chars) : Nat :=
  ds.foldl (fun n c => 10 * n + (c.toNat - '0'.toNat)) 0

/-- JS `String.prototype.trim`: drop whitespace from both ends. -/
def trimChars (s : Chars) : Chars :=
  ((s.dropWhile Char.isWhitespace).reverse.dropWhile Char.isWhitespace).reverse

/-- First match of a position matcher, scanning left to right
(the semantics of an unanchored JS `String.prototype.match`). -/
def findFirst {α : Type} (m : Chars → Option α) : Chars → Option α
  | [] => m []
  | c :: cs =>
    match m (c :: cs) with
    | some a => some a
    | none => findFirst m cs

/-- Length (in characters) consumed by a matcher that returns its rest. -/
def matchLen {α : Type} (m : Chars → Option (α × Chars)) (s : Chars) : Option Nat :=
  (m s).map (fun r => s.length - r.2.length)

/-- Recursion core of `stripAll`; the fuel bounds the number of scan steps
(each step consumes at least one character, so the input length suffices). -/
def stripAllGo (m : Chars → Option Nat) : Nat → Chars → Chars
  | 0, s => s
  | _ + 1, [] => []
  | fuel + 1, c :: cs =>
    match m (c :: cs) with
    | some k => stripAllGo m fuel (List.drop (k - 1) cs)
    | none => c :: stripAllGo m fuel cs

/-- JS `String.prototype.replace` with a `g` flag and an empty replacement:
scan left to right, delete each non-overlapping match, continue after it. -/
def stripAll (m : Chars → Option Nat) (s : Chars) : Chars :=
  stripAllGo m s.length s

/-! ## Questionnaire scorer (`calculateAOTScore`, routes.ts:15-41) -/

structure AOTResponse where
  questionId : Int
  response : Int
deriving Repr, DecidableEq

structure AOTQuestion where
  id : Int
  isReversed : Bool
deriving Repr, DecidableEq

/-- `Math.min(Math.max(response, 1), 6)` (routes.ts:31). -/
def clampResponse (v : Int) : Int := min (max v 1) 6

/-- `reversedMap.get(questionId) || false`, where `reversedMap` is a JS `Map`
built from the question list (later entries overwrite earlier ones). -/
def reversedLookup (questions : List AOTQuestion) (qid : Int) : Bool :=
  (((questions.reverse).find? (fun q => q.id == qid)).map (fun q => q.isReversed)).getD false

/-- The body of the scoring loop (routes.ts:29-38): per-response contribution. -/
def aotTerm (questions : List AOTQuestion) (r : AOTResponse) : Int :=
  if reversedLookup questions r.questionId then 7 - clampResponse r.response
  else clampResponse r.response

/-- `calculateAOTScore` (routes.ts:15-41): `null` when the number of distinct
answered question ids differs from the question count, else the summed score. -/
def calculateAOTScore (responses : List AOTResponse) (questions : List AOTQuestion) :
    Option Int :=
  if (responses.map (fun r => r.questionId)).dedup.length ≠ questions.length then
    none
  else
    some (responses.foldl (fun acc r => acc + aotTerm questions r) 0)

/-- Outcome of the `/api/complete-questionnaire` handler (routes.ts:1034-1039). -/
inductive QuestionnaireResult where
  | incomplete (missing : Int)
  | done (score : Int)
deriving Repr, DecidableEq

/-- The `/api/complete-questionnaire` handler's use of the scorer
(routes.ts:1034-1039): on `null`, report
`missing = aotQuestionsList.length - latestResponses.length`. -/
def completeQuestionnaire (responses : List AOTResponse) (questions : List AOTQuestion) :
    QuestionnaireResult :=
  match calculateAOTScore responses questions with
  | none => .incomplete ((questions.length : Int) - (responses.length : Int))
  | some s => .done s

/-! ### Helper lemmas for the scorer -/

theorem foldl_add_eq_sum_map {α : Type} (f : α → Int) (l : List α) (a : Int) :
    l.foldl (fun acc x => acc + f x) a = a + (l.map f).sum := by
  induction l generalizing a with
  | nil => simp
  | cons x xs ih =>
    simp only [List.foldl_cons, List.map_cons, List.sum_cons, ih]
    ring

theorem clampResponse_bounds (v : Int) : 1 ≤ clampResponse v ∧ clampResponse v ≤ 6 := by
  unfold clampResponse
  constructor
  · exact le_min (le_max_right v 1) (by norm_num)
  · exact min_le_right _ _

theorem aotTerm_bounds (questions : List AOTQuestion) (r : AOTResponse) :
    1 ≤ aotTerm questions r ∧ aotTerm questions r ≤ 6 := by
  unfold aotTerm
  have h := clampResponse_bounds r.response
  split <;> omega

theorem sum_map_bounds {α : Type} (f : α → Int) (l : List α)
    (h : ∀ x ∈ l, 1 ≤ f x ∧ f x ≤ 6) :
    (l.length : Int) ≤ (l.map f).sum ∧ (l.map f).sum ≤ 6 * l.length := by
  induction l with
  | nil => simp
  | cons x xs ih =>
    have hx := h x (List.mem_cons_self x xs)
    have ihh := ih (fun y hy => h y (List.mem_cons_of_mem _ hy))
    simp only [List.map_cons, List.sum_cons, List.length_cons]
    push_cast
    omega

/-- C1: for response sets covering each question exactly once (their id
multiset is a permutation of the distinct question ids), the scorer returns
(never rejects) the sum over responses of `if reversed then 7 - c else c`
with `c` the response clamped into `[1, 6]` — the response values are
arbitrary integers, so out-of-range values are silently clamped into the
formula rather than rejected — and the score lies in `[n, 6n]` for `n` the
question count, whether or not the raw values were in range. -/
theorem aot_score_formula_and_bounds
    (responses : List AOTResponse) (questions : List AOTQuestion)
    (hq : (questions.map (fun q => q.id)).Nodup)
    (hperm : (responses.map (fun r => r.questionId)).Perm (questions.map (fun q => q.id))) :
    calculateAOTScore responses questions
      = some ((responses.map (aotTerm questions)).sum)
    ∧ (questions.length : Int) ≤ (responses.map (aotTerm questions)).sum
    ∧ (responses.map (aotTerm questions)).sum ≤ 6 * questions.length := by
  have hlen : responses.length = questions.length := by
    have := hperm.length_eq
    simpa using this
  have hcheck : (responses.map (fun r => r.questionId)).dedup.length = questions.length := by
    have hd : (responses.map (fun r => r.questionId)).dedup.Perm
        ((questions.map (fun q => q.id)).dedup) := hperm.dedup
    have hqd : (questions.map (fun q => q.id)).dedup = questions.map (fun q => q.id) :=
      List.dedup_eq_self.mpr hq
    have := hd.length_eq
    rw [hqd] at this
    simpa using this
  have hbounds := sum_map_bounds (aotTerm questions) responses
    (fun r _ => aotTerm_bounds questions r)
  refine ⟨?_, ?_, ?_⟩
  · unfold calculateAOTScore
    rw [if_neg (by omega)]
    rw [foldl_add_eq_sum_map]
    simp
  · calc (questions.length : Int) = (responses.length : Int) := by exact_mod_cast hlen.symm
      _ ≤ _ := hbounds.1
  · have hc : (responses.length : Int) = (questions.length : Int) := by exact_mod_cast hlen
    calc (responses.map (aotTerm questions)).sum
        ≤ 6 * (responses.length : Int) := hbounds.2
      _ = 6 * (questions.length : Int) := by rw [hc]

/-- Witness for C1 at a concrete two-question instance with both response
values out of range: question 2 is reversed, response 9 is clamped to 6 and
contributes 6, response 0 is clamped to 1 and contributes 7 - 1 = 6, so the
scorer returns 12 (no rejection), within [2, 12]. -/
theorem aot_score_formula_and_bounds_witness :
    calculateAOTScore [⟨1, 9⟩, ⟨2, 0⟩] [⟨1, false⟩, ⟨2, true⟩] = some 12
    ∧ (([⟨1, false⟩, ⟨2, true⟩] : List AOTQuestion).length : Int)
        ≤ (([⟨1, 9⟩, ⟨2, 0⟩] : List AOTResponse).map
            (aotTerm [⟨1, false⟩, ⟨2, true⟩])).sum
    ∧ (([⟨1, 9⟩, ⟨2, 0⟩] : List AOTResponse).map
          (aotTerm [⟨1, false⟩, ⟨2, true⟩])).sum
        ≤ 6 * ([⟨1, false⟩, ⟨2, true⟩] : List AOTQuestion).length :=
  aot_score_formula_and_bounds [⟨1, 9⟩, ⟨2, 0⟩] [⟨1, false⟩, ⟨2, true⟩]
    (by decide) (by decide)

/-- C6: when the number of distinct answered question ids differs from the
question count the scorer returns the `null` sentinel (no exception), the
caller reports `missing = question count - response count`, and answering
`n - 1` of `n` questions (distinct ids) yields `missing = 1`. -/
theorem questionnaire_incomplete_sentinel
    (responses : List AOTResponse) (questions : List AOTQuestion)
    (hmis : (responses.map (fun r => r.questionId)).dedup.length ≠ questions.length) :
    calculateAOTScore responses questions = none
    ∧ completeQuestionnaire responses questions
        = .incomplete ((questions.length : Int) - (responses.length : Int))
    ∧ ((responses.map (fun r => r.questionId)).Nodup →
        responses.length + 1 = questions.length →
        completeQuestionnaire responses questions = .incomplete 1) := by
  have hnone : calculateAOTScore responses questions = none := by
    unfold calculateAOTScore
    rw [if_pos hmis]
  have hinc : completeQuestionnaire responses questions
      = .incomplete ((questions.length : Int) - (responses.length : Int)) := by
    unfold completeQuestionnaire
    rw [hnone]
  refine ⟨hnone, hinc, ?_⟩
  intro hnd hlen
  rw [hinc]
  have hone : (questions.length : Int) - (responses.length : Int) = 1 := by omega
  rw [hone]

/-- Witness for C6: answering 1 of 2 questions yields the incomplete
sentinel with `missing = 1`. -/
theorem questionnaire_incomplete_sentinel_witness :
    calculateAOTScore [⟨1, 3⟩] [⟨1, false⟩, ⟨2, true⟩] = none
    ∧ completeQuestionnaire [⟨1, 3⟩] [⟨1, false⟩, ⟨2, true⟩]
        = .incomplete ((([⟨1, false⟩, ⟨2, true⟩] : List AOTQuestion).length : Int)
            - (([⟨1, 3⟩] : List AOTResponse).length : Int))
    ∧ ((([⟨1, 3⟩] : List AOTResponse).map (fun r => r.questionId)).Nodup →
        ([⟨1, 3⟩] : List AOTResponse).length + 1
          = ([⟨1, false⟩, ⟨2, true⟩] : List AOTQuestion).length →
        completeQuestionnaire [⟨1, 3⟩] [⟨1, false⟩, ⟨2, true⟩] = .incomplete 1) :=
  questionnaire_incomplete_sentinel [⟨1, 3⟩] [⟨1, false⟩, ⟨2, true⟩] (by decide)

/-! ## `/api/dialogue` annotation parsing (routes.ts:310-386) -/

/-- A point award extracted from a dialogue reply: `parseInt` of the digit
capture and the trimmed type capture. -/
structure PointAward where
  amount : Nat
  type : Chars
deriving Repr, DecidableEq

/-- Position matcher for `/\x7baward_points:\s*(\d+),\s*type:\s*"([^"]+)"\x7d/`
(routes.ts:311). Returns `((amount digits as Nat, type capture), rest)`. -/
def dlgPointsMatchAt (s : Chars) : Option ((Nat × Chars) × Chars) := do
  let s1 ← matchLit "\x7baward_points:".toList s
  let s2 := s1.dropWhile Char.isWhitespace
  let (ds, s3) ← matchPlus Char.isDigit s2
  let s4 ← matchLit ",".toList s3
  let s5 := s4.dropWhile Char.isWhitespace
  let s6 ← matchLit "type:".toList s5
  let s7 := s6.dropWhile Char.isWhitespace
  let s8 ← matchLit "\"".toList s7
  let (ty, s9) ← matchPlus (fun c => !(c == '"')) s8
  let s10 ← matchLit "\"\x7d".toList s9
  return ((digitsToNat ds, ty), s10)

/-- Points extraction of the `/api/dialogue` handler (routes.ts:311-319). -/
def dlgExtractPoints (s : Chars) : Option PointAward :=
  (findFirst dlgPointsMatchAt s).map (fun r => ⟨r.1.1, trimChars r.1.2⟩)

/-- The character class `[a-z_]` under the JS `i` flag: ASCII letters of
either case and underscore. -/
def badgeNameChar (c : Char) : Bool :=
  ('a' ≤ c && c ≤ 'z') || ('A' ≤ c && c ≤ 'Z') || c == '_'

/-- Position matcher for `/\[badge:\s*([a-z_]+)\]/i` (routes.ts:322). -/
def badgeMatchAt (s : Chars) : Option (Chars × Chars) := do
  let s1 ← matchLitCI "[badge:".toList s
  let s2 := s1.dropWhile Char.isWhitespace
  let (nm, s3) ← matchPlus badgeNameChar s2
  let s4 ← matchLit "]".toList s3
  return (nm, s4)

/-- Badge-name extraction of the `/api/dialogue` handler (routes.ts:322-325):
first match only, captured name trimmed, no lowercasing. -/
def dlgExtractBadge (s : Chars) : Option Chars :=
  (findFirst badgeMatchAt s).map (fun r => trimChars r.1)

/-- Response cleaning (routes.ts:378-381): strip all point tokens, then all
badge tokens, then trim. -/
def dlgCleanResponse (s : Chars) : Chars :=
  trimChars (stripAll (matchLen badgeMatchAt) (stripAll (matchLen dlgPointsMatchAt) s))

/-- `points?.amount || 0` (routes.ts:385). -/
def dlgTotalPoints (points : Option PointAward) : Nat :=
  match points with
  | some p => p.amount
  | none => 0

/-- `dialogueHistory.length >= 8 && totalPoints >= 30` (routes.ts:386). -/
def dlgIsComplete (dialogueHistoryLength totalPoints : Nat) : Bool :=
  decide (dialogueHistoryLength ≥ 8) && decide (totalPoints ≥ 30)

/-- `dialogueHistory.length >= 8 && (points?.amount || 0) >= 30`
in the health-nut handler (routes.ts:1428). -/
def hnIsComplete (dialogueHistoryLength totalPoints : Nat) : Bool :=
  decide (dialogueHistoryLength ≥ 8) && decide (totalPoints ≥ 30)

/-- The known badge names of the client badge module (`BADGE_INFO` keys). -/
def knownBadgeNames : List Chars :=
  ["reason_giver".toList, "fact_checker".toList, "link_cutter".toList,
   "hidden_premise_hunter".toList, "evidence_expert".toList]

/-- `extractBadgeAward` of the client badge module: first regex match,
lowercased, validated against the known badge names. -/
def extractBadgeAward (s : Chars) : Option Chars :=
  match findFirst badgeMatchAt s with
  | none => none
  | some (nm, _) =>
    let lowered := nm.map Char.toLower
    if knownBadgeNames.contains lowered then some lowered else none

/-! ## `/api/health-nut/dialogue` parsing (routes.ts:1388-1428) -/

/-- Position matcher for the health-nut points regex
`/\x7baward_points:\s*(\d+),\s*type:\s*""([^"]+)"\x7d/` (routes.ts:1388).
Note the doubled quote before the type capture, exactly as in the source. -/
def hnPointsMatchAt (s : Chars) : Option ((Nat × Chars) × Chars) := do
  let s1 ← matchLit "\x7baward_points:".toList s
  let s2 := s1.dropWhile Char.isWhitespace
  let (ds, s3) ← matchPlus Char.isDigit s2
  let s4 ← matchLit ",".toList s3
  let s5 := s4.dropWhile Char.isWhitespace
  let s6 ← matchLit "type:".toList s5
  let s7 := s6.dropWhile Char.isWhitespace
  let s8 ← matchLit "\"\"".toList s7
  let (ty, s9) ← matchPlus (fun c => !(c == '"')) s8
  let s10 ← matchLit "\"\x7d".toList s9
  return ((digitsToNat ds, ty), s10)

/-- Points extraction of the health-nut handler (routes.ts:1394-1399). -/
def hnExtractPoints (s : Chars) : Option PointAward :=
  (findFirst hnPointsMatchAt s).map (fun r => ⟨r.1.1, trimChars r.1.2⟩)

/-- Position matcher for `/\x7btable:\s*(\x7b[^\x7d]+\x7d)\x7d/`
(routes.ts:1389): the capture is the inner brace-delimited payload. -/
def hnTableMatchAt (s : Chars) : Option (Chars × Chars) := do
  let s1 ← matchLit "\x7btable:".toList s
  let s2 := s1.dropWhile Char.isWhitespace
  let s3 ← matchLit "\x7b".toList s2
  let (inner, s4) ← matchPlus (fun c => !(c == '\x7d')) s3
  let s5 ← matchLit "\x7d\x7d".toList s4
  return ('\x7b' :: (inner ++ ['\x7d']), s5)

/-- Table extraction of the health-nut handler (routes.ts:1401-1407):
`JSON.parse` is the external JS builtin, passed in as a parameter; the
`try`/`catch` around it becomes the `Option`, so a parse failure yields
`none` (the handler's `table` stays `null`) and never an error. -/
def hnExtractTable {J : Type} (jsonParse : Chars → Option J) (s : Chars) : Option J :=
  match findFirst hnTableMatchAt s with
  | none => none
  | some (payload, _) => jsonParse payload

/-- The two speaker tags of the health-nut message splitter. -/
inductive Speaker where
  | qaylee
  | plato
deriving Repr, DecidableEq

/-- The `(Qaylee|Plato):` alternative of the splitter regex (routes.ts:1410). -/
def speakerTagAt (s : Chars) : Option (Speaker × Chars) :=
  match matchLit "Qaylee:".toList s with
  | some r => some (.qaylee, r)
  | none =>
    match matchLit "Plato:".toList s with
    | some r => some (.plato, r)
    | none => none

/-- Characters up to (excluding) the next speaker tag: the lazy
`([\s\S]*?)` capture bounded by the `(?=Qaylee:|Plato:|$)` lookahead. -/
def contentUntilTag : Chars → Chars
  | [] => []
  | c :: cs => if (speakerTagAt (c :: cs)).isSome then [] else c :: contentUntilTag cs

/-- The remaining input starting at the next speaker tag (or `[]`). -/
def restFromTag : Chars → Chars
  | [] => []
  | c :: cs => if (speakerTagAt (c :: cs)).isSome then c :: cs else restFromTag cs

theorem matchLit_length (p : Chars) :
    ∀ s r, matchLit p s = some r → s.length = p.length + r.length := by
  induction p with
  | nil => intro s r h; simp [matchLit] at h; simp [h]
  | cons x xs ih =>
    intro s r h
    cases s with
    | nil => simp [matchLit] at h
    | cons c cs =>
      simp only [matchLit] at h
      split at h
      · have := ih cs r h
        simp [this]
        omega
      · exact absurd h (by simp)

theorem speakerTagAt_length {s : Chars} {sp : Speaker} {r : Chars}
    (h : speakerTagAt s = some (sp, r)) : r.length < s.length := by
  unfold speakerTagAt at h
  cases hq : matchLit "Qaylee:".toList s with
  | some r1 =>
    rw [hq] at h
    have hl := matchLit_length "Qaylee:".toList s r1 hq
    have hr : r1 = r := by
      simp only [Option.some.injEq, Prod.mk.injEq] at h
      exact h.2
    subst hr
    have h7 : ("Qaylee:".toList).length = 7 := by rfl
    omega
  | none =>
    rw [hq] at h
    cases hp : matchLit "Plato:".toList s with
    | some r2 =>
      rw [hp] at h
      have hl := matchLit_length "Plato:".toList s r2 hp
      have hr : r2 = r := by
        simp only [Option.some.injEq, Prod.mk.injEq] at h
        exact h.2
      subst hr
      have h6 : ("Plato:".toList).length = 6 := by rfl
      omega
    | none => rw [hp] at h; exact absurd h (by simp)

theorem length_dropWhile_le (p : Char → Bool) (l : Chars) :
    (l.dropWhile p).length ≤ l.length := by
  induction l with
  | nil => simp [List.dropWhile]
  | cons c cs ih =>
    by_cases hp : p c
    · simp only [List.dropWhile_cons, hp, if_true, List.length_cons]
      omega
    · simp [List.dropWhile_cons, hp]

theorem restFromTag_length_le (s : Chars) : (restFromTag s).length ≤ s.length := by
  induction s with
  | nil => simp [restFromTag]
  | cons c cs ih =>
    unfold restFromTag
    split
    · simp
    · simp only [List.length_cons]
      omega

/-- `matchAll` of the splitter regex (routes.ts:1410-1411): the list of
(speaker, raw content) segments of the reply. -/
def hnSegments : Chars → List (Speaker × Chars)
  | [] => []
  | c :: cs =>
    match h : speakerTagAt (c :: cs) with
    | some (sp, rest) =>
      let body := rest.dropWhile Char.isWhitespace
      (sp, contentUntilTag body) :: hnSegments (restFromTag body)
    | none => hnSegments cs
  termination_by s => s.length
  decreasing_by
  · have h1 := speakerTagAt_length h
    have h2 := length_dropWhile_le Char.isWhitespace rest
    have h3 := restFromTag_length_le (rest.dropWhile Char.isWhitespace)
    simp only [List.length_cons] at h1 ⊢
    omega
  · simp only [List.length_cons]
    omega

/-- JS `.` without the `s` flag: any character but a line terminator. -/
def jsDotChar (c : Char) : Bool := !(c == '\n' || c == '\r')

/-- The lazy tail `.*?\x7d` of the health-nut cleanup regexes: minimal
run of `.`-characters up to the first closing brace. -/
def lazyToBrace : Chars → Option Chars
  | [] => none
  | c :: cs =>
    if c == '\x7d' then some cs
    else if jsDotChar c then lazyToBrace cs
    else none

/-- Position matcher for `/\x7baward_points:.*?\x7d/` (routes.ts:1416). -/
def hnAwardStripMatchAt (s : Chars) : Option (Unit × Chars) := do
  let s1 ← matchLit "\x7baward_points:".toList s
  let s2 ← lazyToBrace s1
  return ((), s2)

/-- Position matcher for `/\x7btable:.*?\x7d/` (routes.ts:1417). -/
def hnTableStripMatchAt (s : Chars) : Option (Unit × Chars) := do
  let s1 ← matchLit "\x7btable:".toList s
  let s2 ← lazyToBrace s1
  return ((), s2)

/-- Per-segment content cleaning (routes.ts:1413-1417): trim, then strip
award tokens, then strip table tokens. -/
def hnCleanContent (content : Chars) : Chars :=
  stripAll (matchLen hnTableStripMatchAt)
    (stripAll (matchLen hnAwardStripMatchAt) (trimChars content))

/-- One formatted message of the health-nut reply (routes.ts:1412-1425). -/
structure HNMessage (J : Type) where
  speaker : Speaker
  content : Chars
  table : Option J

/-- `formattedMessages` (routes.ts:1412-1425): the extracted table is
attached to Plato's messages only. -/
def hnFormattedMessages {J : Type} (table : Option J) (aiResponse : Chars) :
    List (HNMessage J) :=
  (hnSegments aiResponse).map (fun seg =>
    { speaker := seg.1,
      content := hnCleanContent seg.2,
      table := if seg.1 == Speaker.plato then table else none })

/-- The JSON body of the health-nut handler's reply (routes.ts:1430-1434). -/
structure HNResult (J : Type) where
  messages : List (HNMessage J)
  points : Option PointAward
  isComplete : Bool

/-- The response-processing tail of the health-nut handler
(routes.ts:1388-1434), from the raw AI reply to the JSON body. -/
def healthNutHandler {J : Type} (jsonParse : Chars → Option J)
    (dialogueHistoryLength : Nat) (aiResponse : Chars) : HNResult J :=
  let points := hnExtractPoints aiResponse
  let table := hnExtractTable jsonParse aiResponse
  let messages := hnFormattedMessages table aiResponse
  ⟨messages, points, hnIsComplete dialogueHistoryLength (dlgTotalPoints points)⟩

/-! ## `/api/thought-zombies/dialogue` score extraction (routes.ts:1546-1586) -/

/-- Position matcher for `/\[TOTAL: \+(\d+)\]/i` (routes.ts:1548). -/
def tzTotalMatchAt (s : Chars) : Option (Nat × Chars) := do
  let s1 ← matchLitCI "[TOTAL: +".toList s
  let (ds, s2) ← matchPlus Char.isDigit s1
  let s3 ← matchLit "]".toList s2
  return (digitsToNat ds, s3)

/-- Position matcher for the legacy `/\[Score: \+(\d+)\]/i` (routes.ts:1552). -/
def tzOldScoreMatchAt (s : Chars) : Option (Nat × Chars) := do
  let s1 ← matchLitCI "[Score: +".toList s
  let (ds, s2) ← matchPlus Char.isDigit s1
  let s3 ← matchLit "]".toList s2
  return (digitsToNat ds, s3)

/-- Position matcher for a category token `/\[TAG \+(\d+):[^\]]*\]/i`
(routes.ts:1556-1558), `TAG` one of REASONING, ENGAGEMENT, BONUS. -/
def tzCategoryMatchAt (tag : Chars) (s : Chars) : Option (Nat × Chars) := do
  let s1 ← matchLitCI tag s
  let (ds, s2) ← matchPlus Char.isDigit s1
  let s3 ← matchLit ":".toList s2
  let s4 := s3.dropWhile (fun c => !(c == ']'))
  let s5 ← matchLit "]".toList s4
  return (digitsToNat ds, s5)

def tzFindTotal (s : Chars) : Option Nat := (findFirst tzTotalMatchAt s).map (fun r => r.1)

def tzFindOld (s : Chars) : Option Nat := (findFirst tzOldScoreMatchAt s).map (fun r => r.1)

def tzFindReasoning (s : Chars) : Option Nat :=
  (findFirst (tzCategoryMatchAt "[REASONING +".toList) s).map (fun r => r.1)

def tzFindEngagement (s : Chars) : Option Nat :=
  (findFirst (tzCategoryMatchAt "[ENGAGEMENT +".toList) s).map (fun r => r.1)

def tzFindBonus (s : Chars) : Option Nat :=
  (findFirst (tzCategoryMatchAt "[BONUS +".toList) s).map (fun r => r.1)

/-- Score extraction of the thought-zombies handler (routes.ts:1566-1586):
trust `[TOTAL: +N]` if present; else, if any category token is present, sum
the three category amounts (absent ones count 0); else fall back to the
legacy `[Score: +N]`; else 0. -/
def tzScore (s : Chars) : Nat :=
  match tzFindTotal s with
  | some n => n
  | none =>
    match tzFindReasoning s, tzFindEngagement s, tzFindBonus s with
    | none, none, none =>
      match tzFindOld s with
      | some n => n
      | none => 0
    | r, e, b => r.getD 0 + e.getD 0 + b.getD 0

/-! ## `/api/award-badge` ledger (routes.ts:470-546) -/

/-- A row of the `badges` table. -/
structure BadgeRow where
  id : Nat
  name : String
  description : String
  imageUrl : String
deriving Repr, DecidableEq

/-- A row of the `userBadges` table. -/
structure UserBadgeRow where
  userId : Nat
  badgeId : Nat
  gameType : String
deriving Repr, DecidableEq

/-- The slice of database state the badge ledger touches. -/
structure DBState where
  badges : List BadgeRow
  userBadges : List UserBadgeRow
deriving Repr, DecidableEq

/-- The possible responses of the `/api/award-badge` handler. -/
inductive AwardOutcome where
  | missingBadgeType
  | notFound
  | alreadyAwarded (b : BadgeRow)
  | newlyAwarded (b : BadgeRow)
deriving Repr, DecidableEq

/-- The `/api/award-badge` handler (routes.ts:470-546): look the badge up by
name (`limit(1)`, i.e. first matching row), check for an existing
`(userId, badgeId)` row, insert only when none exists. -/
def awardBadge (st : DBState) (userId : Nat) (badgeType : String) (gameType : String) :
    AwardOutcome × DBState :=
  if badgeType = "" then (.missingBadgeType, st)
  else
    match st.badges.find? (fun row => row.name == badgeType) with
    | none => (.notFound, st)
    | some badge =>
      match st.userBadges.find? (fun ub => ub.userId == userId && ub.badgeId == badge.id) with
      | some _ => (.alreadyAwarded badge, st)
      | none =>
        (.newlyAwarded badge,
         { st with userBadges := st.userBadges ++ [⟨userId, badge.id, gameType⟩] })

/-! ## `/api/update-score` (routes.ts:415-437) -/

/-- The score update: `safePointsToAdd = Math.max(-currentTotal, points)`
is applied to the stored total. Returns (applied delta, new total). -/
def updateScore (currentTotal : Int) (points : Int) : Int × Int :=
  let safePointsToAdd := max (-currentTotal) points
  (safePointsToAdd, currentTotal + safePointsToAdd)

/-! ## Client-side Thought Zombies session completion
(ThoughtZombiesGame.tsx:615-625) -/

/-- The `gameStage` union of the component: `'intro' | 'argue-own' | 'results'`. -/
inductive TZStage where
  | intro
  | argueOwn
  | results
deriving Repr, DecidableEq

/-- `badgeCount` (ThoughtZombiesGame.tsx:618-620): badges are counted by id,
a badge already in the collection is not counted twice. -/
def tzBadgeCount (earnedBadgeIds : List Nat) (badgeFromResponse : Option Nat) : Nat :=
  match badgeFromResponse with
  | some bid => earnedBadgeIds.length + (if earnedBadgeIds.contains bid then 0 else 1)
  | none => earnedBadgeIds.length

/-- The completion check (ThoughtZombiesGame.tsx:622-625): move to results
when the session score reaches 100 or the badge count reaches 5, else keep
the current stage. -/
def tzNextStage (gameStage : TZStage) (newTotalScore : Nat) (badgeCount : Nat) : TZStage :=
  if decide (newTotalScore ≥ 100) || decide (badgeCount ≥ 5) then .results else gameStage

/-! ## Theorems for the dialogue completion rules and score updates -/

/-- C5: in both the `/api/dialogue` and `/api/health-nut/dialogue` modes the
completion evaluator is true exactly when `turnCount ≥ 8` and
`points ≥ 30`; in particular (7, 1000) and (8, 29) are not complete and
(8, 30) is. -/
theorem completion_rule_8_30 :
    (∀ t p, dlgIsComplete t p = true ↔ (8 ≤ t ∧ 30 ≤ p))
    ∧ (∀ t p, hnIsComplete t p = true ↔ (8 ≤ t ∧ 30 ≤ p))
    ∧ dlgIsComplete 7 1000 = false ∧ dlgIsComplete 8 29 = false
    ∧ dlgIsComplete 8 30 = true
    ∧ hnIsComplete 7 1000 = false ∧ hnIsComplete 8 29 = false
    ∧ hnIsComplete 8 30 = true := by
  refine ⟨?_, ?_, by decide, by decide, by decide, by decide, by decide, by decide⟩
  · intro t p
    simp [dlgIsComplete]
  · intro t p
    simp [hnIsComplete]

/-- Witness for C5 at turn count 9 with 31 points (complete in both modes). -/
theorem completion_rule_8_30_witness :
    dlgIsComplete 9 31 = true ∧ hnIsComplete 9 31 = true :=
  ⟨(completion_rule_8_30.1 9 31).mpr ⟨by decide, by decide⟩,
   (completion_rule_8_30.2.1 9 31).mpr ⟨by decide, by decide⟩⟩

/-- C2: the thought-zombies extracted score follows exactly the precedence
TOTAL token, then sum of the present category tokens (absent ones 0), then
legacy Score token, then 0. -/
theorem tz_score_precedence (s : Chars) :
    (∀ n, tzFindTotal s = some n → tzScore s = n)
    ∧ (tzFindTotal s = none →
        (tzFindReasoning s ≠ none ∨ tzFindEngagement s ≠ none ∨ tzFindBonus s ≠ none) →
        tzScore s = (tzFindReasoning s).getD 0 + (tzFindEngagement s).getD 0
          + (tzFindBonus s).getD 0)
    ∧ (∀ n, tzFindTotal s = none → tzFindReasoning s = none → tzFindEngagement s = none →
        tzFindBonus s = none → tzFindOld s = some n → tzScore s = n)
    ∧ (tzFindTotal s = none → tzFindReasoning s = none → tzFindEngagement s = none →
        tzFindBonus s = none → tzFindOld s = none → tzScore s = 0) := by
  refine ⟨?_, ?_, ?_, ?_⟩
  · intro n h
    unfold tzScore
    rw [h]
  · intro h0 hne
    unfold tzScore
    rw [h0]
    cases hr : tzFindReasoning s <;> cases he : tzFindEngagement s <;>
      cases hb : tzFindBonus s <;> simp_all
  · intro n h0 hr he hb hold
    unfold tzScore
    rw [h0, hr, he, hb, hold]
  · intro h0 hr he hb hold
    unfold tzScore
    rw [h0, hr, he, hb, hold]

/-- Witness for C2: one concrete reply per branch of the fallback order. -/
theorem tz_score_precedence_witness :
    tzScore "[TOTAL: +12] x [REASONING +3: y]".toList = 12
    ∧ tzScore "[REASONING +10: a][ENGAGEMENT +5: b][BONUS +2: c]".toList
        = (tzFindReasoning "[REASONING +10: a][ENGAGEMENT +5: b][BONUS +2: c]".toList).getD 0
          + (tzFindEngagement "[REASONING +10: a][ENGAGEMENT +5: b][BONUS +2: c]".toList).getD 0
          + (tzFindBonus "[REASONING +10: a][ENGAGEMENT +5: b][BONUS +2: c]".toList).getD 0
    ∧ tzScore "[Score: +7] legacy".toList = 7
    ∧ tzScore "no tokens at all".toList = 0 :=
  ⟨(tz_score_precedence _).1 12 (by rfl),
   (tz_score_precedence _).2.1 (by rfl) (Or.inl (by decide)),
   (tz_score_precedence _).2.2.1 7 (by rfl) (by rfl) (by rfl) (by rfl) (by rfl),
   (tz_score_precedence _).2.2.2 (by rfl) (by rfl) (by rfl) (by rfl) (by rfl)⟩

/-- C9: the client Thought Zombies session moves to results exactly when the
session score reaches 100 or the badge count reaches 5; below both
thresholds the stage is unchanged. -/
theorem tz_session_completion (stage : TZStage) (score badgeCount : Nat) :
    (100 ≤ score ∨ 5 ≤ badgeCount → tzNextStage stage score badgeCount = .results)
    ∧ (score < 100 → badgeCount < 5 → tzNextStage stage score badgeCount = stage) := by
  constructor
  · intro h
    unfold tzNextStage
    rw [if_pos]
    simpa using h
  · intro h1 h2
    unfold tzNextStage
    rw [if_neg]
    simp only [Bool.or_eq_true, decide_eq_true_eq]
    omega

/-- Witness for C9: 100 points completes the session; 99 points with 4
badges does not. -/
theorem tz_session_completion_witness :
    tzNextStage .argueOwn 100 0 = .results ∧ tzNextStage .argueOwn 99 4 = .argueOwn :=
  ⟨(tz_session_completion .argueOwn 100 0).1 (Or.inl (by decide)),
   (tz_session_completion .argueOwn 99 4).2 (by decide) (by decide)⟩

/-- C10: the score update applies `max(-currentTotal, points)`, so from a
non-negative total the new total is `max 0 (currentTotal + points)` and in
particular stays non-negative, for any integer delta. -/
theorem update_score_clamped (currentTotal points : Int) (h : 0 ≤ currentTotal) :
    0 ≤ (updateScore currentTotal points).2
    ∧ (updateScore currentTotal points).2 = max 0 (currentTotal + points)
    ∧ (updateScore currentTotal points).1 = max (-currentTotal) points := by
  have hmax : currentTotal + max (-currentTotal) points = max 0 (currentTotal + points) := by
    rcases le_total (-currentTotal) points with hc | hc
    · rw [max_eq_right hc, max_eq_right (show (0 : Int) ≤ currentTotal + points by omega)]
    · rw [max_eq_left hc, max_eq_left (show currentTotal + points ≤ 0 by omega)]
      omega
  refine ⟨?_, ?_, ?_⟩
  · show 0 ≤ currentTotal + max (-currentTotal) points
    rw [hmax]
    exact le_max_left 0 _
  · show currentTotal + max (-currentTotal) points = max 0 (currentTotal + points)
    exact hmax
  · rfl

/-- Witness for C10: adding -25 to a total of 10 clamps the new total to 0. -/
theorem update_score_clamped_witness :
    0 ≤ (updateScore 10 (-25)).2
    ∧ (updateScore 10 (-25)).2 = max 0 (10 + (-25))
    ∧ (updateScore 10 (-25)).1 = max (-(10 : Int)) (-25) :=
  update_score_clamped 10 (-25) (by norm_num)

/-- The spec's end-to-end example reply for the `/api/dialogue` parser. -/
def specExampleReply : Chars :=
  "\x7baward_points: 5, type: \"new_argument\"\x7d Great point! [badge: reason_giver]".toList

/-- A well-formed point token exactly as the health-nut system prompt
instructs the model to emit it (single quote before the type label). -/
def wellFormedPointsReply : Chars :=
  "\x7baward_points: 5, type: \"new_argument\"\x7d Great point!".toList

/-- The only shape the health-nut points regex can match: a doubled quote
before the type label. -/
def doubledQuotePointsReply : Chars :=
  "\x7baward_points: 5, type: \"\"new_argument\"\x7d ok".toList

/-- C3 (code bug at routes.ts:1388): the `/api/dialogue` parser extracts the
token's literal amount, type and badge name and strips every token from the
display text, but the health-nut points regex, written with a doubled quote
(`type:\s*""(...)`), rejects the well-formed token its own prompt mandates
and only matches the malformed doubled-quote shape. -/
theorem health_nut_points_regex_rejects_wellformed :
    dlgExtractPoints specExampleReply = some ⟨5, "new_argument".toList⟩
    ∧ dlgExtractBadge specExampleReply = some "reason_giver".toList
    ∧ dlgCleanResponse specExampleReply = "Great point!".toList
    ∧ hnExtractPoints wellFormedPointsReply = none
    ∧ hnExtractPoints doubledQuotePointsReply = some ⟨5, "new_argument".toList⟩ :=
  ⟨by rfl, by rfl, by rfl, by rfl, by rfl⟩

/-! ## Badge extraction: charset and first-match properties -/

theorem all_takeWhile (p : Char → Bool) (l : Chars) : (l.takeWhile p).all p = true := by
  induction l with
  | nil => rfl
  | cons c cs ih =>
    by_cases hp : p c
    · simp [List.takeWhile_cons, hp, ih]
    · simp [List.takeWhile_cons, hp]

theorem matchPlus_all {p : Char → Bool} {s tok rest : Chars}
    (h : matchPlus p s = some (tok, rest)) : tok.all p = true := by
  simp only [matchPlus] at h
  split at h
  · exact absurd h (by simp)
  · simp only [Option.some.injEq, Prod.mk.injEq] at h
    rw [← h.1]
    exact all_takeWhile p s

theorem all_dropWhile {p q : Char → Bool} {l : Chars} (h : l.all p = true) :
    (l.dropWhile q).all p = true := by
  induction l with
  | nil => exact h
  | cons c cs ih =>
    simp only [List.all_cons, Bool.and_eq_true] at h
    by_cases hq : q c
    · rw [List.dropWhile_cons, if_pos hq]
      exact ih h.2
    · rw [List.dropWhile_cons, if_neg hq, List.all_cons, h.1, h.2]
      rfl

theorem all_reverse {p : Char → Bool} {l : Chars} (h : l.all p = true) :
    l.reverse.all p = true := by
  simp only [List.all_eq_true] at h ⊢
  intro c hc
  exact h c (List.mem_reverse.mp hc)

theorem all_trimChars {p : Char → Bool} {l : Chars} (h : l.all p = true) :
    (trimChars l).all p = true := by
  unfold trimChars
  exact all_reverse (all_dropWhile (all_reverse (all_dropWhile h)))

theorem badgeMatchAt_name_chars {s nm rest : Chars}
    (h : badgeMatchAt s = some (nm, rest)) : nm.all badgeNameChar = true := by
  unfold badgeMatchAt at h
  simp only [bind, Option.bind_eq_some, pure, Option.some.injEq, Prod.mk.injEq] at h
  obtain ⟨s1, _, h⟩ := h
  obtain ⟨⟨tok, s3⟩, h2, h⟩ := h
  obtain ⟨s4, _, h5, _⟩ := h
  rw [← h5]
  exact matchPlus_all h2

theorem findFirst_imp {α : Type} {P : α → Prop} (m : Chars → Option α)
    (hm : ∀ t a, m t = some a → P a) :
    ∀ s a, findFirst m s = some a → P a := by
  intro s
  induction s with
  | nil =>
    intro a h
    exact hm [] a (by simpa [findFirst] using h)
  | cons c cs ih =>
    intro a h
    simp only [findFirst] at h
    cases hmc : m (c :: cs) with
    | some b =>
      rw [hmc] at h
      simp only [Option.some.injEq] at h
      exact h ▸ hm (c :: cs) b hmc
    | none =>
      rw [hmc] at h
      exact ih a h

theorem findFirst_at_head {α : Type} (m : Chars → Option α) (s : Chars) (a : α)
    (h : m s = some a) : findFirst m s = some a := by
  cases s with
  | nil => simpa [findFirst] using h
  | cons c cs => simp [findFirst, h]

theorem findFirst_cons_none {α : Type} (m : Chars → Option α) (c : Char) (cs : Chars)
    (h : m (c :: cs) = none) : findFirst m (c :: cs) = findFirst m cs := by
  simp [findFirst, h]

/-- The character set the claim names: lowercase ASCII letters and underscore. -/
def lowerOrUnderscore (c : Char) : Bool := ('a' ≤ c && c ≤ 'z') || c == '_'

theorem knownBadgeNames_lower {x : Chars} (h : x ∈ knownBadgeNames) :
    x.all lowerOrUnderscore = true := by
  simp only [knownBadgeNames, List.mem_cons, List.not_mem_nil, or_false] at h
  rcases h with h | h | h | h | h <;> subst h <;> decide

/-- C7 counterexample: the badge regex carries the `i` flag, so the
`/api/dialogue` extraction accepts `[badge: FACT_CHECKER]` and returns a
name containing uppercase letters, outside the claimed lowercase-and-
underscore character set. -/
theorem badge_charset_counterexample :
    dlgExtractBadge "[badge: FACT_CHECKER]".toList = some "FACT_CHECKER".toList
    ∧ ("FACT_CHECKER".toList).all lowerOrUnderscore = false :=
  ⟨by rfl, by rfl⟩

/-- C7 amended: badge extraction accepts names over ASCII letters of either
case and underscore (the `[a-z_]+` class under the `i` flag); the client
`extractBadgeAward` additionally lowercases the name and validates it
against the known badge list; and only the first badge token in the text is
honored, at most one badge per response. -/
theorem badge_extraction_amended (s : Chars) :
    (∀ nm, dlgExtractBadge s = some nm → nm.all badgeNameChar = true)
    ∧ (∀ nm, extractBadgeAward s = some nm →
        nm ∈ knownBadgeNames ∧ nm.all lowerOrUnderscore = true)
    ∧ (∀ r, badgeMatchAt s = some r → dlgExtractBadge s = some (trimChars r.1))
    ∧ (∀ c cs, s = c :: cs → badgeMatchAt s = none →
        dlgExtractBadge s = dlgExtractBadge cs) := by
  refine ⟨?_, ?_, ?_, ?_⟩
  · intro nm h
    unfold dlgExtractBadge at h
    cases hf : findFirst badgeMatchAt s with
    | none => rw [hf] at h; exact absurd h (by simp)
    | some r =>
      rw [hf] at h
      simp only [Option.map_some', Option.some.injEq] at h
      subst h
      have hr : (r.1).all badgeNameChar = true := by
        have hh := findFirst_imp (P := fun a : Chars × Chars => (a.1).all badgeNameChar = true)
          badgeMatchAt
          (fun t a ha => by
            obtain ⟨nm', rest'⟩ := a
            exact badgeMatchAt_name_chars ha) s r hf
        exact hh
      exact all_trimChars hr
  · intro nm h
    unfold extractBadgeAward at h
    cases hf : findFirst badgeMatchAt s with
    | none => rw [hf] at h; exact absurd h (by simp)
    | some r =>
      obtain ⟨nm0, rest0⟩ := r
      rw [hf] at h
      by_cases hc : knownBadgeNames.contains (nm0.map Char.toLower)
      · simp only [hc, if_true, Option.some.injEq] at h
        subst h
        have hmem : nm0.map Char.toLower ∈ knownBadgeNames := by
          simpa using hc
        exact ⟨hmem, knownBadgeNames_lower hmem⟩
      · simp only [hc, if_false] at h
        exact absurd h (by simp)
  · intro r h
    unfold dlgExtractBadge
    rw [findFirst_at_head badgeMatchAt s r h]
    rfl
  · intro c cs hs h
    subst hs
    unfold dlgExtractBadge
    rw [findFirst_cons_none badgeMatchAt c cs h]

/-- Witness for C7's amended claim: concrete charset facts and, on a text
with two badge tokens, extraction of the first name only. -/
theorem badge_extraction_amended_witness :
    ("reason_giver".toList).all badgeNameChar = true
    ∧ ("fact_checker".toList ∈ knownBadgeNames
        ∧ ("fact_checker".toList).all lowerOrUnderscore = true)
    ∧ dlgExtractBadge "[badge: reason_giver] and [badge: fact_checker]".toList
        = some "reason_giver".toList :=
  ⟨(badge_extraction_amended "[badge: reason_giver] ok".toList).1
      "reason_giver".toList (by rfl),
   (badge_extraction_amended "[badge: FACT_CHECKER]".toList).2.1
      "fact_checker".toList (by rfl),
   (badge_extraction_amended "[badge: reason_giver] and [badge: fact_checker]".toList).2.2.1
      ("reason_giver".toList, " and [badge: fact_checker]".toList) (by rfl)⟩

/-! ## Table parse failure (C8) and badge ledger (C4) -/

/-- C8: when the health-nut reply contains a `table` token whose inner
payload fails to parse as JSON, the handler returns no table (`null`)
while points, messages and completion are computed and returned exactly as
they would be without a table; the failure is absorbed (the handler is a
total function), never propagated as an error. -/
theorem table_parse_failure_tolerated {J : Type} (jsonParse : Chars → Option J)
    (hist : Nat) (text : Chars) (payload rest : Chars)
    (hfind : findFirst hnTableMatchAt text = some (payload, rest))
    (hfail : jsonParse payload = none) :
    hnExtractTable jsonParse text = none
    ∧ healthNutHandler jsonParse hist text
        = ⟨hnFormattedMessages none text, hnExtractPoints text,
           hnIsComplete hist (dlgTotalPoints (hnExtractPoints text))⟩ := by
  have ht : hnExtractTable jsonParse text = none := by
    unfold hnExtractTable
    rw [hfind]
    exact hfail
  refine ⟨ht, ?_⟩
  unfold healthNutHandler
  rw [ht]

/-- A concrete health-nut reply with a table token, for the C8 witness. -/
def hnTableReplyExample : Chars :=
  "Plato: look \x7btable: \x7b\"headers\": [\"a\"], \"rows\": [[\"1\"]]\x7d\x7d ok".toList

/-- Witness for C8: a parser that always fails leaves the table empty and
the rest of the handler result intact on a concrete reply. -/
theorem table_parse_failure_tolerated_witness :
    hnExtractTable (fun _ => (none : Option Nat)) hnTableReplyExample = none
    ∧ healthNutHandler (fun _ => (none : Option Nat)) 3 hnTableReplyExample
        = ⟨hnFormattedMessages none hnTableReplyExample,
           hnExtractPoints hnTableReplyExample,
           hnIsComplete 3 (dlgTotalPoints (hnExtractPoints hnTableReplyExample))⟩ :=
  table_parse_failure_tolerated (fun _ => (none : Option Nat)) 3 hnTableReplyExample
    "\x7b\"headers\": [\"a\"], \"rows\": [[\"1\"]]\x7d".toList " ok".toList
    (by rfl) (by rfl)

/-- C4: awarding the same badge name twice for the same user yields
`newlyAwarded` then `alreadyAwarded`, the second call inserts nothing, and
exactly one ledger row for the (userId, badgeId) pair exists afterwards. -/
theorem award_badge_idempotent
    (st : DBState) (u : Nat) (nm g1 g2 : String) (b : BadgeRow)
    (hne : nm ≠ "")
    (hfind : st.badges.find? (fun row => row.name == nm) = some b)
    (hnew : st.userBadges.find? (fun ub => ub.userId == u && ub.badgeId == b.id) = none) :
    (awardBadge st u nm g1).1 = .newlyAwarded b
    ∧ (awardBadge (awardBadge st u nm g1).2 u nm g2).1 = .alreadyAwarded b
    ∧ ((awardBadge (awardBadge st u nm g1).2 u nm g2).2.userBadges.filter
        (fun ub => ub.userId == u && ub.badgeId == b.id)).length = 1
    ∧ (awardBadge (awardBadge st u nm g1).2 u nm g2).2 = (awardBadge st u nm g1).2 := by
  obtain ⟨bs, ubs⟩ := st
  simp only at hfind hnew
  have h1 : awardBadge ⟨bs, ubs⟩ u nm g1
      = (.newlyAwarded b, ⟨bs, ubs ++ [⟨u, b.id, g1⟩]⟩) := by
    unfold awardBadge
    rw [if_neg hne]
    simp only
    rw [hfind]
    simp only [hnew]
  have h2find : (ubs ++ [(⟨u, b.id, g1⟩ : UserBadgeRow)]).find?
      (fun ub => ub.userId == u && ub.badgeId == b.id) = some ⟨u, b.id, g1⟩ := by
    rw [List.find?_append, hnew]
    simp [List.find?]
  have h2 : awardBadge ⟨bs, ubs ++ [⟨u, b.id, g1⟩]⟩ u nm g2
      = (.alreadyAwarded b, ⟨bs, ubs ++ [⟨u, b.id, g1⟩]⟩) := by
    unfold awardBadge
    rw [if_neg hne]
    simp only
    rw [hfind]
    simp only [h2find]
  have hfilter0 : ubs.filter (fun ub => ub.userId == u && ub.badgeId == b.id) = [] := by
    rw [List.filter_eq_nil_iff]
    intro a ha
    have hcontr := List.find?_eq_none.mp hnew a ha
    simpa using hcontr
  have hfilter : ((ubs ++ [(⟨u, b.id, g1⟩ : UserBadgeRow)]).filter
      (fun ub => ub.userId == u && ub.badgeId == b.id)).length = 1 := by
    rw [List.filter_append, hfilter0]
    simp [List.filter]
  rw [h1]
  refine ⟨rfl, ?_, ?_, ?_⟩
  · show (awardBadge ⟨bs, ubs ++ [⟨u, b.id, g1⟩]⟩ u nm g2).1 = .alreadyAwarded b
    rw [h2]
  · show ((awardBadge ⟨bs, ubs ++ [⟨u, b.id, g1⟩]⟩ u nm g2).2.userBadges.filter
        (fun ub => ub.userId == u && ub.badgeId == b.id)).length = 1
    rw [h2]
    exact hfilter
  · show (awardBadge ⟨bs, ubs ++ [⟨u, b.id, g1⟩]⟩ u nm g2).2 = _
    rw [h2]

/-- The `evidence_expert` row exactly as seeded by `initializeBadges`. -/
def evidenceExpertRow : BadgeRow :=
  ⟨1, "evidence_expert", "You backed up your point with proof or an example",
   "/badges/evidence-expert-badge.png"⟩

/-- A ledger state holding the seeded badge and no awards yet. -/
def ledgerInit : DBState := ⟨[evidenceExpertRow], []⟩

/-- Witness for C4: awarding `evidence_expert` twice to user 7 from the
fresh ledger. -/
theorem award_badge_idempotent_witness :
    (awardBadge ledgerInit 7 "evidence_expert" "thought_zombies").1
      = .newlyAwarded evidenceExpertRow
    ∧ (awardBadge (awardBadge ledgerInit 7 "evidence_expert" "thought_zombies").2
        7 "evidence_expert" "thought_zombies").1 = .alreadyAwarded evidenceExpertRow
    ∧ ((awardBadge (awardBadge ledgerInit 7 "evidence_expert" "thought_zombies").2
        7 "evidence_expert" "thought_zombies").2.userBadges.filter
        (fun ub => ub.userId == 7 && ub.badgeId == evidenceExpertRow.id)).length = 1
    ∧ (awardBadge (awardBadge ledgerInit 7 "evidence_expert" "thought_zombies").2
        7 "evidence_expert" "thought_zombies").2
      = (awardBadge ledgerInit 7 "evidence_expert" "thought_zombies").2 :=
  award_badge_idempotent ledgerInit 7 "evidence_expert" "thought_zombies" "thought_zombies"
    evidenceExpertRow (by decide) (by rfl) (by rfl)

end Brainz
